import Mathlib

set_option maxRecDepth 200000
set_option maxHeartbeats 1000000

/-!
Shallow embedding of `src/harmony_multi_branch_verifier.py`, a one-shot
compliance checker that fetches three artifact files from a remote branch and
validates them against hardcoded rules.

Modelling conventions:
* Pure validation logic is translated function-by-function from the Python
  source.  Diagnostics printed with a leading failure marker are modelled as
  values of the `Diag` type returned alongside the boolean outcome; success
  prints are not modelled.
* Python code that would raise an uncaught exception (e.g. `re.match` applied
  to a non-string, `len` of an int) is modelled with `Option`: `none` means
  the process dies with a traceback.
* The JSON artifact validator is modelled on the already-parsed value
  (the shape all commit-ledger claims quantify over: an object mapping branch
  names to arrays of commit objects).  `json.loads` itself is a library call;
  its failure is the `none` case of the validator input.
* Network calls (`requests.get`) and the base64/bytes-decode library calls are
  modelled as oracle parameters; only their observable outcomes matter.
* Python `str` peculiarities: `len` counts code points (`String.length`);
  `\d` and `str.lower`/`str.strip` are modelled on their ASCII behaviour,
  which is exact on every string the configuration mentions.
-/

/-- JSON values as produced by `json.loads` (floats do not occur in any of the
claims and are not modelled; JSON `true`/`false` become Python bools, which
`isinstance (·, int)` accepts). -/
inductive JValue where
  | null : JValue
  | bool (b : Bool) : JValue
  | int (n : Int) : JValue
  | str (s : String) : JValue
  | arr (xs : List JValue) : JValue
  | obj (fs : List (String × JValue)) : JValue

/-- A parsed JSON commit object: association list of field name to value. -/
abbrev CommitObj := List (String × JValue)

/-- The parsed top-level JSON artifact: object mapping branch name to the
array of commit objects. -/
abbrev BranchData := List (String × List CommitObj)

/-- Python `commit[f]` / `f in commit` (dict lookup on the parsed object). -/
def getField (c : CommitObj) (f : String) : Option JValue :=
  List.lookup f c

/-- Python `len` on a JSON value: defined for `str`, `list` and `dict`
(`some`), a `TypeError` (`none`) otherwise. -/
def pyLen : JValue → Option Nat
  | JValue.str s => some s.length
  | JValue.arr xs => some xs.length
  | JValue.obj fs => some fs.length
  | _ => none

/-- Python `isinstance (v, int)`: true for ints and bools. -/
def pyIsInt : JValue → Bool
  | JValue.int _ => true
  | JValue.bool _ => true
  | _ => false

/-- Numeric value used by comparisons once `isinstance (v, int)` holds. -/
def pyIntVal : JValue → Int
  | JValue.int n => n
  | JValue.bool b => if b then 1 else 0
  | _ => 0

/-- `needle` starts the character list `hay`. -/
def strStartsWith : List Char → List Char → Bool
  | _, [] => true
  | [], _ :: _ => false
  | h :: hs, n :: ns => h == n && strStartsWith hs ns

/-- `needle` occurs inside the character list `hay`. -/
def strHasSub : List Char → List Char → Bool
  | [], ns => ns.isEmpty
  | h :: t, ns => strStartsWith (h :: t) ns || strHasSub t ns

/-- Python `needle in hay` on strings (substring containment). -/
def pyIn (needle hay : String) : Bool :=
  strHasSub hay.toList needle.toList

/-- Python `a in l` on a list (or dict-key view) of strings. -/
def strMem (a : String) : List String → Bool
  | [] => false
  | x :: xs => a == x || strMem a xs

/-- Python `str.lower` (ASCII range; every configured keyword is ASCII). -/
def pyLower (s : String) : String :=
  String.mk (s.toList.map Char.toLower)

/-- Python `str.strip` (whitespace at both ends removed). -/
def pyStrip (s : String) : String :=
  String.mk (((s.toList.dropWhile Char.isWhitespace).reverse.dropWhile
    Char.isWhitespace).reverse)

/-- UTF-8 byte length of a string (Python `len(s.encode("utf-8"))`). -/
def utf8Length (s : String) : Nat :=
  (s.toList.map Char.utf8Size).sum

/-- A lowercase hexadecimal digit, the character class of the sha patterns. -/
def isLowerHex (c : Char) : Bool :=
  ('0' ≤ c && c ≤ '9') || ('a' ≤ c && c ≤ 'f')

/-- An ASCII digit, modelling the regex class of digits. -/
def isDigitA (c : Char) : Bool :=
  '0' ≤ c && c ≤ '9'

/-- `re.match` with the sha pattern from `field_rules` (forty lowercase hex
characters anchored at both ends; the end anchor also matches just before one
trailing newline, as in Python). -/
def matchSha40 (s : String) : Bool :=
  let cs := s.toList
  let cs := if cs.getLast? == some '\n' then cs.dropLast else cs
  cs.length == 40 && cs.all isLowerHex

/-- Tail of a timeline line after the date and first separator: one or more
non-newline characters, a second separator, then exactly forty lowercase hex
characters ending the line. -/
def matchMiddleHex (rest : List Char) : Bool :=
  let n := rest.length
  decide (44 ≤ n) &&
    (rest.take (n - 43)).all (fun c => c != '\n') &&
    ((rest.drop (n - 43)).take 3 == [' ', '|', ' ']) &&
    (rest.drop (n - 40)).all isLowerHex

/-- `re.match` with the timeline `line_pattern`: a date of shape
digits 4, dash, digits 2, dash, digits 2, then a separator, a non-empty
description, a separator and a forty character lowercase sha.  The digit
class is modelled on ASCII digits. -/
def matchTimelineLine (s : String) : Bool :=
  let cs := s.toList
  let cs := if cs.getLast? == some '\n' then cs.dropLast else cs
  match cs with
  | d1 :: d2 :: d3 :: d4 :: h1 :: d5 :: d6 :: h2 :: d7 :: d8 :: s1 :: s2 :: s3 :: rest =>
    isDigitA d1 && isDigitA d2 && isDigitA d3 && isDigitA d4 && h1 == '-' &&
    isDigitA d5 && isDigitA d6 && h2 == '-' && isDigitA d7 && isDigitA d8 &&
    s1 == ' ' && s2 == '|' && s3 == ' ' && matchMiddleHex rest
  | _ => false

/-- Python `str.split` with separator newline, on the character list
("".split gives one empty piece, as in Python). -/
def splitNL : List Char → List (List Char)
  | [] => [[]]
  | c :: cs =>
    if c = '\n' then [] :: splitNL cs
    else
      match splitNL cs with
      | [] => [[c]]
      | l :: ls => (c :: l) :: ls

/-- Lines of the timeline artifact: split on newline, strip each line, keep
the non-blank ones. -/
def pyLines (content : String) : List String :=
  ((splitNL content.toList).map (fun cs => pyStrip (String.mk cs))).filter
    (fun l => l ≠ "")

/-!  Static configuration (the `CONFIG` dictionary of the script).  -/

/-- `CONFIG.ARTIFACTS[0].content_checks.expected_branches`. -/
def expected_branches : List String :=
  ["pr/45-googlefan256-main",
   "pr/25-neuralsorcerer-patch-1",
   "pr/41-amirhosseinghanipour-fix-race-conditions-and-offline-api"]

/-- `CONFIG.ARTIFACTS[0].schema.commit_fields`. -/
def commit_fields : List String :=
  ["sha", "author", "message", "files_changed"]

/-- `CONFIG.ARTIFACTS[0].schema.min_branches`. -/
def min_branches : Nat := 3

/-- `CONFIG.ARTIFACTS[0].schema.min_commits_per_branch`. -/
def min_commits_per_branch : Nat := 3

/-- `CONFIG.ARTIFACTS[0].content_checks.field_rules.author.min_len`. -/
def author_min_len : Nat := 3

/-- `CONFIG.ARTIFACTS[0].content_checks.field_rules.files_changed.min`. -/
def files_changed_min : Int := 1

/-- `CONFIG.ARTIFACTS[1].schema.required_sections`. -/
def required_sections : List String :=
  ["## Top Contributors", "## Branch Commit Summary"]

/-- `CONFIG.ARTIFACTS[1].schema.min_length`. -/
def md_min_length : Nat := 500

/-- `CONFIG.ARTIFACTS[1].content_checks.must_contain_keywords`. -/
def must_contain_keywords : List String :=
  ["contributors", "commits", "branch"]

/-- `CONFIG.ARTIFACTS[1].content_checks.expected_contributors`. -/
def expected_contributors : List String :=
  ["scott-oai: 35 commits", "egorsmkv: 4 commits", "axion66: 2 commits"]

/-- `CONFIG.ARTIFACTS[2].schema.min_lines`. -/
def min_lines : Nat := 10

/-- `CONFIG.ARTIFACTS[2].content_checks.expected_entries`. -/
def expected_entries : List String :=
  ["2025-08-06 | Merge pull request #29 from axion66/improve-readme-and-checks | 3efbf742533a375fc148d75513597e139329578b",
   "2025-08-06 | Merge pull request #30 from Yuan-ManX/harmony-format | 9d653a4c7382abc42d115014d195d9354e7ad357",
   "2025-08-05 | Merge pull request #26 from jordan-wu-97/jordan/fix-function-call-atomic-bool | 82b3afb9eb043343f322c937262cc50405e892c3"]

/-- The names of the three configured artifacts, in orchestration order. -/
def artifact_names : List String :=
  ["BRANCH_COMMITS.json", "CROSS_BRANCH_ANALYSIS.md", "MERGE_TIMELINE.txt"]

/-- `CONFIG.BRANCH_CONFIG.must_exist`. -/
def branch_must_exist : Bool := true

/-- Failure diagnostics printed by the script (one constructor per distinct
failure print statement). -/
inductive Diag where
  | jsonParseError : Diag
  | branchCountLow (need actual : Nat) : Diag
  | missingBranches (bs : List String) : Diag
  | branchTooFewCommits (branch : String) (actual : Nat) : Diag
  | missingFields (branch : String) (idx : Nat) (fs : List String) : Diag
  | shaFormat (branch : String) (idx : Nat) (sha : String) : Diag
  | shaDuplicate (sha : String) : Diag
  | authorTooShort (branch : String) (idx : Nat) : Diag
  | filesChangedBad (branch : String) (idx : Nat) : Diag
  | docTooShort (actual : Nat) : Diag
  | missingSections (ss : List String) : Diag
  | missingKeywords (ks : List String) : Diag
  | missingContributors (cs : List String) : Diag
  | lineCountLow (actual : Nat) : Diag
  | lineFormat (idx : Nat) (line : String) : Diag
  | missingEntries (es : List String) : Diag
  | skipWarning (name : String) : Diag
  | branchMissingFatal : Diag
  | branchMissingWarn : Diag

/-- The sha string of a commit object (only meaningful once the field is
known to hold a string). -/
def shaOf (c : CommitObj) : String :=
  match getField c "sha" with
  | some (JValue.str s) => s
  | _ => ""

/-- Per-commit body of the loop in `_validate_branch_commits_json`:
field presence, sha format, sha uniqueness (the sha is inserted into the set
before the author and files checks run), author length, files_changed rule.
`none` models the uncaught `TypeError` Python raises when the sha is not a
string or the author value has no `len`. -/
def checkCommit (branch : String) (idx : Nat) (shaSet : List String)
    (c : CommitObj) : Option (Bool × List String × List Diag) :=
  if (commit_fields.filter (fun f => (getField c f).isNone)).isEmpty then
    match getField c "sha" with
    | some (JValue.str sha) =>
      if matchSha40 sha then
        if strMem sha shaSet then
          some (false, shaSet, [Diag.shaDuplicate sha])
        else
          match pyLen ((getField c "author").getD JValue.null) with
          | some alen =>
            if alen < author_min_len then
              some (false, sha :: shaSet, [Diag.authorTooShort branch idx])
            else
              if !(pyIsInt ((getField c "files_changed").getD JValue.null)) ||
                  decide (pyIntVal ((getField c "files_changed").getD JValue.null) <
                    files_changed_min) then
                some (false, sha :: shaSet, [Diag.filesChangedBad branch idx])
              else
                some (true, sha :: shaSet, [])
          | none => none
      else
        some (false, shaSet, [Diag.shaFormat branch idx sha])
    | _ => none
  else
    some (false, shaSet,
      [Diag.missingFields branch idx
        (commit_fields.filter (fun f => (getField c f).isNone))])

/-- The commit loop of `_validate_branch_commits_json` over one branch:
`enumerate (commits, 1)`, threading the sha set, the running validity flag
and the emitted diagnostics. -/
def processCommits (branch : String) (idx : Nat) (shaSet : List String)
    (valid : Bool) (diags : List Diag) :
    List CommitObj → Option (List String × Bool × List Diag)
  | [] => some (shaSet, valid, diags)
  | c :: cs =>
    match checkCommit branch idx shaSet c with
    | none => none
    | some (ok, shaSet2, ds) =>
      processCommits branch (idx + 1) shaSet2 (valid && ok) (diags ++ ds) cs

/-- The branch loop of `_validate_branch_commits_json`: a branch with fewer
than the minimum commits is reported and its commits are skipped (`continue`),
otherwise its commits are checked; later branches are always processed. -/
def processBranches (shaSet : List String) (valid : Bool) (diags : List Diag) :
    BranchData → Option (List String × Bool × List Diag)
  | [] => some (shaSet, valid, diags)
  | (b, commits) :: rest =>
    if commits.length < min_commits_per_branch then
      processBranches shaSet false
        (diags ++ [Diag.branchTooFewCommits b commits.length]) rest
    else
      match processCommits b 1 shaSet valid diags commits with
      | none => none
      | some (shaSet2, valid2, diags2) => processBranches shaSet2 valid2 diags2 rest

/-- `_validate_branch_commits_json` on the parse result of its string input
(`none` input: `json.loads` raised, reported as a syntax failure).  The
result is `none` when the Python code would die on an uncaught exception,
otherwise the boolean outcome together with the failure diagnostics. -/
def validate_branch_commits_json (parsed : Option BranchData) :
    Option (Bool × List Diag) :=
  match parsed with
  | none => some (false, [Diag.jsonParseError])
  | some data =>
    if data.length < min_branches then
      some (false, [Diag.branchCountLow min_branches data.length])
    else
      if !(expected_branches.filter
          (fun b => !(strMem b (data.map Prod.fst)))).isEmpty then
        some (false, [Diag.missingBranches
          (expected_branches.filter (fun b => !(strMem b (data.map Prod.fst))))])
      else
        match processBranches [] true [] data with
        | none => none
        | some (_, valid, diags) => some (valid, diags)

/-- `_validate_cross_branch_md`: length, required sections, keywords
(case-insensitive), expected contributor lines — returning at the first
failing check. -/
def validate_cross_branch_md (content : String) : Bool × List Diag :=
  if content.length < md_min_length then
    (false, [Diag.docTooShort content.length])
  else
    if !(required_sections.filter (fun s => !(pyIn s content))).isEmpty then
      (false, [Diag.missingSections
        (required_sections.filter (fun s => !(pyIn s content)))])
    else
      if !(must_contain_keywords.filter
          (fun k => !(pyIn (pyLower k) (pyLower content)))).isEmpty then
        (false, [Diag.missingKeywords
          (must_contain_keywords.filter
            (fun k => !(pyIn (pyLower k) (pyLower content))))])
      else
        if !(expected_contributors.filter (fun c => !(pyIn c content))).isEmpty then
          (false, [Diag.missingContributors
            (expected_contributors.filter (fun c => !(pyIn c content)))])
        else
          (true, [])

/-- First line of `lines` (1-based position starting at `idx`) that fails the
timeline pattern, as detected by the format loop. -/
def firstBadLine (idx : Nat) : List String → Option (Nat × String)
  | [] => none
  | l :: ls =>
    if !(matchTimelineLine l) then some (idx, l) else firstBadLine (idx + 1) ls

/-- `_validate_merge_timeline`: non-blank line count, per-line pattern (the
loop returns at the first offending line), then expected entries as
substrings of the raw content. -/
def validate_merge_timeline (content : String) : Bool × List Diag :=
  if (pyLines content).length < min_lines then
    (false, [Diag.lineCountLow (pyLines content).length])
  else
    match firstBadLine 1 (pyLines content) with
    | some (idx, line) => (false, [Diag.lineFormat idx line])
    | none =>
      if !(expected_entries.filter (fun e => !(pyIn e content))).isEmpty then
        (false, [Diag.missingEntries
          (expected_entries.filter (fun e => !(pyIn e content)))])
      else
        (true, [])

/-- `_validate_artifact`, the per-name router.  `parse` stands for
`json.loads` restricted to the object-of-commit-arrays shape (its result is
only consulted for the JSON artifact). -/
def validate_artifact (parse : String → Option BranchData) (content : String)
    (name : String) : Option (Bool × List Diag) :=
  if name = "BRANCH_COMMITS.json" then
    validate_branch_commits_json (parse content)
  else if name = "CROSS_BRANCH_ANALYSIS.md" then
    some (validate_cross_branch_md content)
  else if name = "MERGE_TIMELINE.txt" then
    some (validate_merge_timeline content)
  else
    some (true, [Diag.skipWarning name])

/-- The response record consumed by `_get_artifact_content`: the optional
`content` field of the contents-API JSON body. -/
structure FileData where
  content : Option String

/-- Name and declared schema encoding of each configured artifact (the
`encoding` key is present only in the markdown artifact's schema). -/
structure ArtifactEncoding where
  name : String
  schema_encoding : Option String

/-- The `ARTIFACTS` configuration restricted to the fields the encoding
lookup reads. -/
def artifacts_encodings : List ArtifactEncoding :=
  [⟨"BRANCH_COMMITS.json", none⟩,
   ⟨"CROSS_BRANCH_ANALYSIS.md", some "utf-8"⟩,
   ⟨"MERGE_TIMELINE.txt", none⟩]

/-- The generator consumed by `next (...)` in `_get_artifact_content`: first
configured artifact with a matching name whose schema declares an encoding.
`none` is the empty generator, on which `next` raises `StopIteration`. -/
def findDeclaredEncoding (file_name : String) : Option String :=
  (artifacts_encodings.filterMap
    (fun a => if a.name = file_name then a.schema_encoding else none)).head?

/-- `_get_artifact_content` given the fetch outcome (`none`: the API call
failed or the body is falsy) and oracles for the `base64.b64decode` and
`bytes.decode` library calls (each `none` on raise).  When `next` finds no
declared encoding it raises `StopIteration`, which the surrounding `except`
turns into a decode-failure log and a `None` result; a declared empty string
would fall back to utf-8 via `or`. -/
def get_artifact_content (fetched : Option FileData)
    (b64decode : String → Option (List Nat))
    (bytesDecode : List Nat → String → Option String)
    (file_name : String) : Option String :=
  match fetched with
  | none => none
  | some fd =>
    let base64_content := (fd.content.getD "").replace "\n" ""
    match findDeclaredEncoding file_name with
    | none => none
    | some enc =>
      let enc2 := if enc = "" then "utf-8" else enc
      match b64decode base64_content with
      | none => none
      | some bs =>
        match bytesDecode bs enc2 with
        | none => none
        | some s => some s

/-- Outcome of one `requests.get` in `_call_github_api`: a status code, or a
raised request exception. -/
inductive ApiOutcome where
  | status (code : Nat) : ApiOutcome
  | exn : ApiOutcome

/-- The success flag `_call_github_api` returns (body irrelevant for the
branch-existence endpoint): 200 succeeds, 404, other statuses and exceptions
fail. -/
def apiSuccess : ApiOutcome → Bool
  | ApiOutcome.status 200 => true
  | _ => false

/-- `_check_branch_existence`: a failed lookup on a mandatory branch returns
false (fatal), on a non-mandatory branch returns true with a warning;
success returns true. -/
def check_branch_existence (res : ApiOutcome) (must_exist : Bool) :
    Bool × List Diag :=
  if !(apiSuccess res) && must_exist then (false, [Diag.branchMissingFatal])
  else if !(apiSuccess res) then (true, [Diag.branchMissingWarn])
  else (true, [])

/-- Step 2 of `main`: `sys.exit 1` (modelled `some 1`) when the existence
check fails, otherwise the run continues (`none`). -/
def mainStep2Exit (res : ApiOutcome) (must_exist : Bool) : Option Nat :=
  if (check_branch_existence res must_exist).1 then none else some 1

/-- The artifact loop of `main` step 3 over the remaining artifact names:
a missing or falsy (empty) content or a failed validation clears `all_valid`
and the loop continues; the names already processed are accumulated.  `none`
models a validator crash killing the process. -/
def step3Loop (fetch : String → Option String)
    (parse : String → Option BranchData) :
    List String → Bool → List String → Option (Bool × List String)
  | [], all_valid, attempted => some (all_valid, attempted)
  | name :: rest, all_valid, attempted =>
    match fetch name with
    | none => step3Loop fetch parse rest false (attempted ++ [name])
    | some content =>
      if content = "" then step3Loop fetch parse rest false (attempted ++ [name])
      else
        match validate_artifact parse content name with
        | none => none
        | some (ok, _) =>
          step3Loop fetch parse rest (all_valid && ok) (attempted ++ [name])

/-- `main` from step 3 on: run the artifact loop over the three configured
artifacts, then exit 1 if any failed, otherwise run the no-op steps 4 and 5
and exit 0.  The second component records which artifacts were attempted. -/
def mainArtifactPhase (fetch : String → Option String)
    (parse : String → Option BranchData) : Option (Nat × List String) :=
  match step3Loop fetch parse artifact_names true [] with
  | none => none
  | some (all_valid, attempted) =>
    some (if all_valid then 0 else 1, attempted)

/-- Outcome of one artifact in the step-3 loop: fetched, non-empty and
validated (crash counted as not-ok; the loop lemma excludes crashes). -/
def artifactOk (fetch : String → Option String)
    (parse : String → Option BranchData) (nm : String) : Bool :=
  match fetch nm with
  | none => false
  | some content =>
    if content = "" then false
    else
      match validate_artifact parse content nm with
      | none => false
      | some (ok, _) => ok

/-- Intrinsic per-commit well-formedness: all four fields present, the sha a
string matching the pattern, the author value sized with length at least the
minimum, files_changed an int at least the minimum. -/
def commitOk (c : CommitObj) : Bool :=
  (commit_fields.all (fun f => (getField c f).isSome)) &&
  (match getField c "sha" with
   | some (JValue.str s) => matchSha40 s
   | _ => false) &&
  (match getField c "author" with
   | some v =>
     match pyLen v with
     | some n => decide (author_min_len ≤ n)
     | none => false
   | none => false) &&
  (match getField c "files_changed" with
   | some v => pyIsInt v && decide (files_changed_min ≤ pyIntVal v)
   | none => false)

/-- All commit objects of the artifact, in iteration order. -/
def flatCommits : BranchData → List CommitObj
  | [] => []
  | p :: rest => p.2 ++ flatCommits rest

/-- The sha strings of all commits of the artifact, in iteration order. -/
def flatShas : BranchData → List String
  | [] => []
  | p :: rest => p.2.map shaOf ++ flatShas rest

/-!  Concrete sample data used to instantiate the quantified statements.  -/

def sha1 : String := "1111111111111111111111111111111111111111"

def sha2 : String := "2222222222222222222222222222222222222222"

def sha3 : String := "3333333333333333333333333333333333333333"

def sha4 : String := "4444444444444444444444444444444444444444"

def sha5 : String := "5555555555555555555555555555555555555555"

def sha6 : String := "6666666666666666666666666666666666666666"

def sha7 : String := "7777777777777777777777777777777777777777"

def sha8 : String := "8888888888888888888888888888888888888888"

def sha9 : String := "9999999999999999999999999999999999999999"

def shaA : String := "aaaaaaaaaaaaaaaaaaaaaaaaaaaaaaaaaaaaaaaa"

def shaB : String := "bbbbbbbbbbbbbbbbbbbbbbbbbbbbbbbbbbbbbbbb"

def shaC : String := "cccccccccccccccccccccccccccccccccccccccc"

/-- A commit object satisfying every per-commit rule. -/
def mkCommit (sha author : String) : CommitObj :=
  [("sha", JValue.str sha), ("author", JValue.str author),
   ("message", JValue.str "msg"), ("files_changed", JValue.int 1)]

/-- An artifact containing the three expected branches, three rule-conforming
commits each, all shas distinct. -/
def goodData : BranchData :=
  [("pr/45-googlefan256-main",
    [mkCommit sha1 "alice", mkCommit sha2 "bob", mkCommit sha3 "carol"]),
   ("pr/25-neuralsorcerer-patch-1",
    [mkCommit sha4 "dave", mkCommit sha5 "erin", mkCommit sha6 "frank"]),
   ("pr/41-amirhosseinghanipour-fix-race-conditions-and-offline-api",
    [mkCommit sha7 "grace", mkCommit sha8 "heidi", mkCommit sha9 "ivan"])]

/-- Like `goodData` but with branch names outside the expected list. -/
def dataC3 : BranchData :=
  [("alpha", [mkCommit sha1 "alice", mkCommit sha2 "bob", mkCommit sha3 "carol"]),
   ("beta", [mkCommit sha4 "dave", mkCommit sha5 "erin", mkCommit sha6 "frank"]),
   ("gamma", [mkCommit sha7 "grace", mkCommit sha8 "heidi", mkCommit sha9 "ivan"])]

/-- Like `goodData` but the last commit of the last branch reuses the first
branch's first sha. -/
def dupData : BranchData :=
  [("pr/45-googlefan256-main",
    [mkCommit sha1 "alice", mkCommit sha2 "bob", mkCommit sha3 "carol"]),
   ("pr/25-neuralsorcerer-patch-1",
    [mkCommit sha4 "dave", mkCommit sha5 "erin", mkCommit sha6 "frank"]),
   ("pr/41-amirhosseinghanipour-fix-race-conditions-and-offline-api",
    [mkCommit sha7 "grace", mkCommit sha8 "heidi", mkCommit sha1 "ivan"])]

/-- A rule-conforming commit list with shas fresh for `goodData`. -/
def extraBranchCommits : List CommitObj :=
  [mkCommit shaA "alice", mkCommit shaB "bob", mkCommit shaC "carol"]

/-- Expected branches where the first two have empty commit lists and the
third is fully conforming: two independent per-branch violations. -/
def dataTwoShort : BranchData :=
  [("pr/45-googlefan256-main", []),
   ("pr/25-neuralsorcerer-patch-1", []),
   ("pr/41-amirhosseinghanipour-fix-race-conditions-and-offline-api",
    [mkCommit sha1 "alice", mkCommit sha2 "bob", mkCommit sha3 "carol"])]

/-- `n` copies of the character `c` as a string. -/
def repChar (n : Nat) (c : Char) : String :=
  String.mk (List.replicate n c)

/-- Markdown content carrying every required section, keyword and
contributor line (106 characters, all ASCII). -/
def mdBase : String :=
  "## Top Contributors\n## Branch Commit Summary\nscott-oai: 35 commits\negorsmkv: 4 commits\naxion66: 2 commits\n"

/-- A narrative document satisfying every content rule, 506 characters. -/
def docPass : String := mdBase ++ repChar 400 'x'

/-- A document with every required substring whose UTF-8 byte length is 506
but whose code-point count is only 306. -/
def doc6 : String := mdBase ++ repChar 200 'é'

/-- A long document that misses the second required section and the keyword
`branch`: two independent rule violations. -/
def doc2 : String :=
  "## Top Contributors\nscott-oai: 35 commits\negorsmkv: 4 commits\naxion66: 2 commits\n"
    ++ repChar 450 'x'

/-- A trivially short document. -/
def docShort : String := "hi"

/-- A conforming timeline line with the given day digit and sha. -/
def tlLine (day sha : String) : String :=
  "2025-01-0" ++ day ++ " | filler | " ++ sha

/-- Ten conforming timeline lines including all expected entries. -/
def logGoodLines : List String :=
  expected_entries ++
    [tlLine "1" sha1, tlLine "2" sha2, tlLine "3" sha3, tlLine "4" sha4,
     tlLine "5" sha5, tlLine "6" sha6, tlLine "7" sha7]

/-- Join lines with newlines. -/
def joinNL : List String → String
  | [] => ""
  | [l] => l
  | l :: ls => l ++ "\n" ++ joinNL ls

/-- A timeline log that passes every check. -/
def logGood : String := joinNL logGoodLines

/-- `logGood` with an offending eleventh line. -/
def logBad : String := logGood ++ "\nnot a timeline line"

/-- `logGood` with a different offending eleventh line. -/
def logBad2 : String := logGood ++ "\nanother bad line!"

/-- A log whose three lines all match but whose count is below the minimum. -/
def logShort : String := joinNL [tlLine "1" sha1, tlLine "2" sha2, tlLine "3" sha3]

/-!  Bridging lemmas about the boolean list helpers.  -/

theorem strMem_eq_true_iff (a : String) (l : List String) :
    strMem a l = true ↔ a ∈ l := by
  induction l with
  | nil => simp [strMem]
  | cons x xs ih =>
    simp [strMem, ih, List.mem_cons, beq_iff_eq]

theorem strMem_eq_false_of_not_mem {a : String} {l : List String} (h : a ∉ l) :
    strMem a l = false := by
  cases hs : strMem a l
  · rfl
  · exact absurd ((strMem_eq_true_iff a l).mp hs) h

theorem filter_eq_nil_of_all {α : Type} (p : α → Bool) (l : List α)
    (h : ∀ a ∈ l, p a = false) : l.filter p = [] := by
  induction l with
  | nil => rfl
  | cons x xs ih =>
    have hx := h x (List.mem_cons_self x xs)
    simp only [List.filter, hx]
    exact ih (fun a ha => h a (List.mem_cons_of_mem x ha))

theorem isNone_eq_false_of_isSome {α : Type} {o : Option α}
    (h : o.isSome = true) : o.isNone = false := by
  cases o
  · exact absurd h (by simp)
  · rfl

theorem optionChain_eq_bind {α β : Type} (o : Option α) (f : α → Option β) :
    (match o with
     | none => none
     | some a =>
       match f a with
       | none => none
       | some s => some s) = o.bind f := by
  cases o with
  | none => rfl
  | some a =>
    change (match f a with
            | none => none
            | some s => some s) = f a
    cases f a with
    | none => rfl
    | some s => rfl

/-!  Behaviour of the commit loop when every commit conforms.  -/

theorem checkCommit_all_ok (b : String) (idx : Nat) (set : List String)
    (c : CommitObj) (hok : commitOk c = true) (hfresh : shaOf c ∉ set) :
    checkCommit b idx set c = some (true, shaOf c :: set, []) := by
  unfold commitOk at hok
  simp only [Bool.and_eq_true] at hok
  obtain ⟨⟨⟨hfields, hsha⟩, hauth⟩, hfc⟩ := hok
  have hmiss : commit_fields.filter (fun f => (getField c f).isNone) = [] := by
    apply filter_eq_nil_of_all
    intro f hf
    exact isNone_eq_false_of_isSome (List.all_eq_true.mp hfields f hf)
  cases hg : getField c "sha" with
  | none => simp [hg] at hsha
  | some v =>
    cases v with
    | str s =>
      simp only [hg] at hsha
      have hshaOf : shaOf c = s := by unfold shaOf; rw [hg]
      rw [hshaOf] at hfresh
      have hsm : strMem s set = false := strMem_eq_false_of_not_mem hfresh
      cases ha : getField c "author" with
      | none => simp [ha] at hauth
      | some av =>
        simp only [ha] at hauth
        cases hl : pyLen av with
        | none => simp [hl] at hauth
        | some n =>
          simp only [hl] at hauth
          have hn : ¬ (n < author_min_len) :=
            Nat.not_lt.mpr (of_decide_eq_true hauth)
          cases hf : getField c "files_changed" with
          | none => simp [hf] at hfc
          | some fv =>
            simp only [hf, Bool.and_eq_true] at hfc
            obtain ⟨hfi, hfm⟩ := hfc
            have hfm2 : ¬ (pyIntVal fv < files_changed_min) :=
              Int.not_lt.mpr (of_decide_eq_true hfm)
            simp [checkCommit, hmiss, hg, hsha, hsm, ha, hl, hf, hshaOf, hfi,
              hn, hfm2]
    | null => simp [hg] at hsha
    | bool b2 => simp [hg] at hsha
    | int n2 => simp [hg] at hsha
    | arr xs => simp [hg] at hsha
    | obj fs => simp [hg] at hsha

theorem processCommits_all_ok (b : String) (cs : List CommitObj) :
    ∀ (idx : Nat) (set : List String) (valid : Bool) (diags : List Diag),
    (∀ c ∈ cs, commitOk c = true) →
    (cs.map shaOf).Nodup →
    (∀ c ∈ cs, shaOf c ∉ set) →
    processCommits b idx set valid diags cs =
      some ((cs.map shaOf).reverse ++ set, valid, diags) := by
  induction cs with
  | nil => intro idx set valid diags _ _ _; simp [processCommits]
  | cons c cs ih =>
    intro idx set valid diags hok hnd hfresh
    have hc := checkCommit_all_ok b idx set c (hok c (List.mem_cons_self c cs))
      (hfresh c (List.mem_cons_self c cs))
    have hnd' : (shaOf c :: cs.map shaOf).Nodup := by simpa using hnd
    have hnd2 : (cs.map shaOf).Nodup := (List.nodup_cons.mp hnd').2
    have hhead : shaOf c ∉ cs.map shaOf := (List.nodup_cons.mp hnd').1
    have hfresh2 : ∀ c2 ∈ cs, shaOf c2 ∉ shaOf c :: set := by
      intro c2 h2
      simp only [List.mem_cons]
      push_neg
      refine ⟨?_, hfresh c2 (List.mem_cons_of_mem c h2)⟩
      intro he
      exact hhead (by rw [← he]; exact List.mem_map_of_mem shaOf h2)
    simp only [processCommits, hc]
    rw [ih (idx + 1) (shaOf c :: set) (valid && true) (diags ++ [])
      (fun c2 h2 => hok c2 (List.mem_cons_of_mem c h2)) hnd2 hfresh2]
    simp [List.append_assoc]

theorem processBranches_all_ok (data : BranchData) :
    ∀ (set : List String) (valid : Bool) (diags : List Diag),
    (∀ p ∈ data, min_commits_per_branch ≤ p.2.length) →
    (∀ p ∈ data, ∀ c ∈ p.2, commitOk c = true) →
    (flatShas data).Nodup →
    (∀ s ∈ flatShas data, s ∉ set) →
    processBranches set valid diags data =
      some ((flatShas data).reverse ++ set, valid, diags) := by
  induction data with
  | nil => intro set valid diags _ _ _ _; simp [processBranches, flatShas]
  | cons p rest ih =>
    obtain ⟨bn, commits⟩ := p
    intro set valid diags hlen hok hnd hfresh
    have hl : ¬ (commits.length < min_commits_per_branch) :=
      Nat.not_lt.mpr (hlen (bn, commits) (List.mem_cons_self _ _))
    have hflat : flatShas ((bn, commits) :: rest) =
        commits.map shaOf ++ flatShas rest := rfl
    rw [hflat] at hnd hfresh
    rw [List.nodup_append] at hnd
    obtain ⟨hnd1, hnd2, hdisj⟩ := hnd
    have hpc := processCommits_all_ok bn commits 1 set valid diags
      (fun c hc => hok (bn, commits) (List.mem_cons_self _ _) c hc) hnd1
      (fun c hc => hfresh (shaOf c)
        (List.mem_append_left _ (List.mem_map_of_mem shaOf hc)))
    have hfresh2 : ∀ s ∈ flatShas rest, s ∉ (commits.map shaOf).reverse ++ set := by
      intro s hs
      simp only [List.mem_append, List.mem_reverse]
      push_neg
      exact ⟨fun hmem => hdisj hmem hs, hfresh s (List.mem_append_right _ hs)⟩
    simp only [processBranches, if_neg hl, hpc]
    rw [ih ((commits.map shaOf).reverse ++ set) valid diags
      (fun q hq => hlen q (List.mem_cons_of_mem _ hq))
      (fun q hq c hc => hok q (List.mem_cons_of_mem _ hq) c hc) hnd2 hfresh2]
    simp [hflat, List.reverse_append, List.append_assoc]

/-- Claim C3 counterexample: an artifact that is an object mapping branch
names to commit arrays, with the minimum number of branches, every commit
rule-conforming and every sha unique and pattern-matching, on which the
validator nevertheless fails: the expected branch names are absent. -/
theorem claim3_counterexample :
    3 ≤ dataC3.length ∧
    (∀ c ∈ flatCommits dataC3, commitOk c = true) ∧
    (flatShas dataC3).Nodup ∧
    validate_branch_commits_json (some dataC3) =
      some (false, [Diag.missingBranches expected_branches]) :=
  ⟨by decide, by decide, by decide, by rfl⟩

/-- Claim C3 (amended): a well-formed artifact — an object mapping branch
names to commit arrays whose commits carry all four required fields, author
length at least 3 and files_changed an int at least 1 — with at least 3
branches, all three expected branch names present, at least 3 commits per
branch, and globally unique pattern-matching shas, passes the validator. -/
theorem claim3_amended (data : BranchData)
    (hn : min_branches ≤ data.length)
    (hexp : ∀ b ∈ expected_branches, b ∈ data.map Prod.fst)
    (hlen : ∀ p ∈ data, min_commits_per_branch ≤ p.2.length)
    (hok : ∀ p ∈ data, ∀ c ∈ p.2, commitOk c = true)
    (hnd : (flatShas data).Nodup) :
    validate_branch_commits_json (some data) = some (true, []) := by
  have hmiss : expected_branches.filter
      (fun b => !(strMem b (data.map Prod.fst))) = [] := by
    apply filter_eq_nil_of_all
    intro b hb
    simp [strMem_eq_true_iff, hexp b hb]
  have hpb := processBranches_all_ok data [] true [] hlen hok hnd
    (by intro s _ h; cases h)
  simp [validate_branch_commits_json, Nat.not_lt.mpr hn, hmiss, hpb]

/-- Witness for the amended claim C3 at a concrete conforming artifact. -/
theorem claim3_amended_witness :
    validate_branch_commits_json (some goodData) = some (true, []) :=
  claim3_amended goodData (by decide) (by decide) (by decide) (by decide)
    (by decide)

/-!  Behaviour of the commit loop on arbitrary data that ends up valid.  -/

theorem eq_nil_of_isEmpty {α : Type} {l : List α} (h : l.isEmpty = true) :
    l = [] := by
  cases l
  · rfl
  · exact absurd h (by simp)

theorem all_eq_false_of_filter_eq_nil {α : Type} {p : α → Bool} {l : List α}
    (h : l.filter p = []) : ∀ a ∈ l, p a = false := by
  intro a ha
  cases hq : p a
  · rfl
  · have hmem : a ∈ l.filter p := List.mem_filter.mpr ⟨ha, hq⟩
    rw [h] at hmem
    cases hmem

theorem flatShas_eq_map (data : BranchData) :
    flatShas data = (flatCommits data).map shaOf := by
  induction data with
  | nil => rfl
  | cons p rest ih => simp [flatShas, flatCommits, ih]

theorem checkCommit_true {b : String} {idx : Nat} {set set2 : List String}
    {c : CommitObj} {ds : List Diag}
    (h : checkCommit b idx set c = some (true, set2, ds)) :
    getField c "sha" = some (JValue.str (shaOf c)) ∧ shaOf c ∉ set ∧
    set2 = shaOf c :: set := by
  unfold checkCommit at h
  split at h
  case isFalse hm => simp at h
  case isTrue hm =>
    split at h
    case h_2 => exact Option.noConfusion h
    case h_1 x sha heq =>
      have hshaOf : shaOf c = sha := by unfold shaOf; rw [heq]
      split at h
      case isFalse hm40 => simp at h
      case isTrue hm40 =>
        split at h
        case isTrue hsm => simp at h
        case isFalse hsm =>
          split at h
          case h_2 => exact Option.noConfusion h
          case h_1 alen hl =>
            split at h
            case isTrue halen => simp at h
            case isFalse halen =>
              split at h
              case isTrue hfb => simp at h
              case isFalse hfb =>
                simp only [Option.some.injEq, Prod.mk.injEq] at h
                refine ⟨by rw [heq, hshaOf], ?_, ?_⟩
                · rw [hshaOf]
                  intro hmem
                  rw [(strMem_eq_true_iff sha set).mpr hmem] at hsm
                  exact hsm rfl
                · rw [hshaOf]
                  exact h.2.1.symm

theorem processCommits_true {b : String} (cs : List CommitObj) :
    ∀ {idx : Nat} {set : List String} {valid : Bool} {diags : List Diag}
      {set2 : List String} {ds2 : List Diag},
    processCommits b idx set valid diags cs = some (set2, true, ds2) →
    valid = true ∧ set2 = (cs.map shaOf).reverse ++ set ∧
    (cs.map shaOf).Nodup ∧
    (∀ c ∈ cs, shaOf c ∉ set ∧
      getField c "sha" = some (JValue.str (shaOf c))) := by
  induction cs with
  | nil =>
    intro idx set valid diags set2 ds2 h
    unfold processCommits at h
    simp only [Option.some.injEq, Prod.mk.injEq] at h
    obtain ⟨hset, hval, _⟩ := h
    exact ⟨hval, by simp [← hset], List.nodup_nil, by intro c hc; cases hc⟩
  | cons c cs ih =>
    intro idx set valid diags set2 ds2 h
    unfold processCommits at h
    cases hc : checkCommit b idx set c with
    | none => rw [hc] at h; exact Option.noConfusion h
    | some t =>
      obtain ⟨ok, setm, dsm⟩ := t
      simp only [hc] at h
      obtain ⟨hvalid, hset2, hnd, hrest⟩ := ih h
      rw [Bool.and_eq_true] at hvalid
      obtain ⟨hval, hok⟩ := hvalid
      subst hok
      obtain ⟨hfield, hfresh, hsetm⟩ := checkCommit_true hc
      subst hsetm
      have hne : ∀ c2 ∈ cs, shaOf c2 ≠ shaOf c ∧ shaOf c2 ∉ set := by
        intro c2 h2
        have := (hrest c2 h2).1
        simp only [List.mem_cons] at this
        push_neg at this
        exact this
      refine ⟨hval, ?_, ?_, ?_⟩
      · rw [hset2]
        simp [List.append_assoc]
      · simp only [List.map_cons, List.nodup_cons]
        refine ⟨?_, hnd⟩
        intro hmem
        obtain ⟨c2, h2, heq⟩ := List.mem_map.mp hmem
        exact (hne c2 h2).1 heq
      · intro c2 h2
        rcases List.mem_cons.mp h2 with h2 | h2
        · subst h2; exact ⟨hfresh, hfield⟩
        · exact ⟨(hne c2 h2).2, (hrest c2 h2).2⟩

theorem processBranches_true (data : BranchData) :
    ∀ {set : List String} {valid : Bool} {diags : List Diag}
      {set2 : List String} {ds2 : List Diag},
    processBranches set valid diags data = some (set2, true, ds2) →
    valid = true ∧ set2 = (flatShas data).reverse ++ set ∧
    (flatShas data).Nodup ∧
    (∀ s ∈ flatShas data, s ∉ set) := by
  induction data with
  | nil =>
    intro set valid diags set2 ds2 h
    unfold processBranches at h
    simp only [Option.some.injEq, Prod.mk.injEq] at h
    obtain ⟨hset, hval, _⟩ := h
    exact ⟨hval, by simp [flatShas, ← hset], by simp [flatShas],
      by intro s hs; cases hs⟩
  | cons p rest ih =>
    obtain ⟨bn, commits⟩ := p
    intro set valid diags set2 ds2 h
    unfold processBranches at h
    split at h
    case isTrue hl =>
      obtain ⟨hval, _, _, _⟩ := ih h
      exact absurd hval (by simp)
    case isFalse hl =>
      cases hpc : processCommits bn 1 set valid diags commits with
      | none => rw [hpc] at h; exact Option.noConfusion h
      | some t =>
        obtain ⟨setm, validm, diagsm⟩ := t
        simp only [hpc] at h
        obtain ⟨hvalidm, hset2, hndrest, hfreshrest⟩ := ih h
        subst hvalidm
        obtain ⟨hval, hsetm, hndc, hrestc⟩ := processCommits_true commits hpc
        subst hsetm
        have hflat : flatShas ((bn, commits) :: rest) =
            commits.map shaOf ++ flatShas rest := rfl
        refine ⟨hval, ?_, ?_, ?_⟩
        · rw [hset2, hflat]
          simp [List.reverse_append, List.append_assoc]
        · rw [hflat, List.nodup_append]
          refine ⟨hndc, hndrest, ?_⟩
          intro s hs1 hs2
          have := hfreshrest s hs2
          simp only [List.mem_append, List.mem_reverse] at this
          push_neg at this
          exact this.1 hs1
        · rw [hflat]
          intro s hs
          rcases List.mem_append.mp hs with hs | hs
          · obtain ⟨c2, h2, heq⟩ := List.mem_map.mp hs
            rw [← heq]
            exact (hrestc c2 h2).1
          · have := hfreshrest s hs
            simp only [List.mem_append, List.mem_reverse] at this
            push_neg at this
            exact this.2

/-- Components of a passing run of the JSON validator: neither early return
fired and the branch loop returned valid. -/
theorem validate_pass_parts {data : BranchData} {ds : List Diag}
    (hres : validate_branch_commits_json (some data) = some (true, ds)) :
    ¬ (data.length < min_branches) ∧
    expected_branches.filter (fun bb => !(strMem bb (data.map Prod.fst))) = [] ∧
    ∃ set2, processBranches [] true [] data = some (set2, true, ds) := by
  simp only [validate_branch_commits_json] at hres
  split at hres
  case isTrue hlen => simp at hres
  case isFalse hlen =>
    split at hres
    case isTrue hne => simp at hres
    case isFalse hne =>
      have hmiss : (expected_branches.filter
          (fun bb => !(strMem bb (data.map Prod.fst)))).isEmpty = true := by
        cases hq : (expected_branches.filter
            (fun bb => !(strMem bb (data.map Prod.fst)))).isEmpty
        · exact absurd (by simp [hq]) hne
        · rfl
      split at hres
      case h_1 hpb => exact Option.noConfusion hres
      case h_2 t v d hpb =>
        simp only [Option.some.injEq, Prod.mk.injEq] at hres
        obtain ⟨hv, hd⟩ := hres
        subst hv
        subst hd
        exact ⟨hlen, eq_nil_of_isEmpty hmiss, t, hpb⟩

/-- Claim C4: an artifact carrying the same pattern-matching sha on two
distinct commits — same or different branches — never validates: whenever
the validator returns, it returns failure. -/
theorem claim4_duplicate_sha_fails (data : BranchData) (x : String)
    (l1 l2 l3 : List CommitObj) (c1 c2 : CommitObj)
    (hflat : flatCommits data = l1 ++ c1 :: (l2 ++ c2 :: l3))
    (h1 : getField c1 "sha" = some (JValue.str x))
    (h2 : getField c2 "sha" = some (JValue.str x))
    (_hx : matchSha40 x = true)
    (b : Bool) (ds : List Diag)
    (hres : validate_branch_commits_json (some data) = some (b, ds)) :
    b = false := by
  cases b
  · rfl
  · exfalso
    obtain ⟨-, -, set2, hpb⟩ := validate_pass_parts hres
    obtain ⟨-, -, hnd, -⟩ := processBranches_true data hpb
    rw [flatShas_eq_map, hflat] at hnd
    simp only [List.map_append, List.map_cons] at hnd
    have hs1 : shaOf c1 = x := by unfold shaOf; rw [h1]
    have hs2 : shaOf c2 = x := by unfold shaOf; rw [h2]
    have hnd2 := (List.nodup_append.mp hnd).2.1
    have hnotin := (List.nodup_cons.mp hnd2).1
    apply hnotin
    rw [hs1]
    refine List.mem_append_right _ ?_
    rw [← hs2]
    exact List.mem_cons_self _ _

/-- Witness for claim C4: a concrete artifact reusing one sha across two
branches is rejected. -/
theorem claim4_duplicate_sha_fails_witness :
    validate_branch_commits_json (some dupData) =
      some (false, [Diag.shaDuplicate sha1]) ∧ (false : Bool) = false :=
  ⟨rfl,
   claim4_duplicate_sha_fails dupData sha1 []
     [mkCommit sha2 "bob", mkCommit sha3 "carol", mkCommit sha4 "dave",
      mkCommit sha5 "erin", mkCommit sha6 "frank", mkCommit sha7 "grace",
      mkCommit sha8 "heidi"] []
     (mkCommit sha1 "alice") (mkCommit sha1 "ivan") rfl rfl rfl (by decide)
     false [Diag.shaDuplicate sha1] rfl⟩

theorem processBranches_append (l1 l2 : BranchData) :
    ∀ (set : List String) (valid : Bool) (diags : List Diag),
    processBranches set valid diags (l1 ++ l2) =
      match processBranches set valid diags l1 with
      | none => none
      | some (s, v, d) => processBranches s v d l2 := by
  induction l1 with
  | nil => intro set valid diags; rfl
  | cons p rest ih =>
    obtain ⟨bn, commits⟩ := p
    intro set valid diags
    by_cases hl : commits.length < min_commits_per_branch
    · show processBranches set valid diags ((bn, commits) :: (rest ++ l2)) = _
      simp only [processBranches, if_pos hl]
      exact ih set false (diags ++ [Diag.branchTooFewCommits bn commits.length])
    · show processBranches set valid diags ((bn, commits) :: (rest ++ l2)) = _
      simp only [processBranches, if_neg hl]
      cases hpc : processCommits bn 1 set valid diags commits with
      | none => rfl
      | some t =>
        obtain ⟨s2, v2, d2⟩ := t
        exact ih s2 v2 d2

/-- Claim C5 (amended): removing any expected branch name from a passing
artifact makes the validator fail; appending an extra branch whose commit
list itself satisfies the per-branch rules (minimum commit count, all commit
field rules, shas distinct and globally fresh) keeps it passing. -/
theorem claim5_amended :
    (∀ (data : BranchData) (bname : String) (ds : List Diag),
      bname ∈ expected_branches →
      validate_branch_commits_json (some data) = some (true, ds) →
      ∃ ds2, validate_branch_commits_json
        (some (data.filter (fun p => !(p.1 == bname)))) = some (false, ds2)) ∧
    (∀ (data : BranchData) (ds : List Diag) (bnew : String)
       (commits : List CommitObj),
      validate_branch_commits_json (some data) = some (true, ds) →
      min_commits_per_branch ≤ commits.length →
      (∀ c ∈ commits, commitOk c = true) →
      (commits.map shaOf).Nodup →
      (∀ c ∈ commits, shaOf c ∉ flatShas data) →
      validate_branch_commits_json (some (data ++ [(bnew, commits)])) =
        some (true, ds)) := by
  constructor
  · intro data bname ds hb hpass
    by_cases hlen2 : (data.filter (fun p => !(p.1 == bname))).length < min_branches
    · exact ⟨[Diag.branchCountLow min_branches
        (data.filter (fun p => !(p.1 == bname))).length],
        by simp [validate_branch_commits_json, hlen2]⟩
    · have hnotmem : bname ∉ (data.filter (fun p => !(p.1 == bname))).map Prod.fst := by
        intro hmem
        obtain ⟨p, hp, hpe⟩ := List.mem_map.mp hmem
        have hpred := (List.mem_filter.mp hp).2
        rw [hpe] at hpred
        simp at hpred
      have hsm : strMem bname
          ((data.filter (fun p => !(p.1 == bname))).map Prod.fst) = false :=
        strMem_eq_false_of_not_mem hnotmem
      have hmem2 : bname ∈ expected_branches.filter
          (fun bb => !(strMem bb
            ((data.filter (fun p => !(p.1 == bname))).map Prod.fst))) :=
        List.mem_filter.mpr ⟨hb, by simp [hsm]⟩
      have hne : (expected_branches.filter
          (fun bb => !(strMem bb
            ((data.filter (fun p => !(p.1 == bname))).map Prod.fst)))).isEmpty
          = false := by
        cases hq : (expected_branches.filter
            (fun bb => !(strMem bb
              ((data.filter (fun p => !(p.1 == bname))).map Prod.fst)))).isEmpty
        · rfl
        · rw [eq_nil_of_isEmpty hq] at hmem2; cases hmem2
      exact ⟨[Diag.missingBranches (expected_branches.filter
          (fun bb => !(strMem bb
            ((data.filter (fun p => !(p.1 == bname))).map Prod.fst))))],
        by simp [validate_branch_commits_json, hlen2, hne]⟩
  · intro data ds bnew commits hpass hcount hok hnd hdisj
    obtain ⟨hlen, hfilter, set2, hpb⟩ := validate_pass_parts hpass
    obtain ⟨-, hset2, hndd, -⟩ := processBranches_true data hpb
    have hfresh : ∀ c ∈ commits, shaOf c ∉ set2 := by
      intro c hc
      rw [hset2]
      simp only [List.append_nil, List.mem_reverse]
      exact hdisj c hc
    have hpc := processCommits_all_ok bnew commits 1 set2 true ds hok hnd hfresh
    have hloop : processBranches [] true [] (data ++ [(bnew, commits)]) =
        some ((commits.map shaOf).reverse ++ set2, true, ds) := by
      rw [processBranches_append data [(bnew, commits)] [] true [], hpb]
      change processBranches set2 true ds [(bnew, commits)] = _
      simp only [processBranches, if_neg (Nat.not_lt.mpr hcount), hpc]
    have hlen3 : ¬ ((data ++ [(bnew, commits)]).length < min_branches) := by
      have hlapp : (data ++ [(bnew, commits)]).length = data.length + 1 := by simp
      omega
    have hmiss3 : (expected_branches.filter
        (fun bb => !(strMem bb
          ((data ++ [(bnew, commits)]).map Prod.fst)))).isEmpty = true := by
      have hall := all_eq_false_of_filter_eq_nil hfilter
      have hnil : (expected_branches.filter
          (fun bb => !(strMem bb
            ((data ++ [(bnew, commits)]).map Prod.fst)))) = [] := by
        apply filter_eq_nil_of_all
        intro bb hbb
        have h1 := hall bb hbb
        have h2 : strMem bb (data.map Prod.fst) = true := by
          cases hq : strMem bb (data.map Prod.fst)
          · rw [hq] at h1; simp at h1
          · rfl
        have h4 : strMem bb (List.map Prod.fst data ++ [bnew]) = true :=
          (strMem_eq_true_iff _ _).mpr
            (List.mem_append_left _ ((strMem_eq_true_iff _ _).mp h2))
        simp [h4]
      rw [hnil]; rfl
    have hc2 : ¬ ((!(expected_branches.filter
        (fun bb => !(strMem bb
          ((data ++ [(bnew, commits)]).map Prod.fst)))).isEmpty) = true) := by
      rw [hmiss3]; simp
    simp only [validate_branch_commits_json]
    rw [if_neg hlen3, if_neg hc2, hloop]

/-- Claim C5 counterexample: appending an extra branch (empty commit list)
to a passing artifact makes validation fail on the per-branch minimum. -/
theorem claim5_counterexample :
    validate_branch_commits_json (some goodData) = some (true, []) ∧
    validate_branch_commits_json (some (goodData ++ [("extra", [])])) =
      some (false, [Diag.branchTooFewCommits "extra" 0]) :=
  ⟨rfl, rfl⟩

/-- Witness for the amended claim C5: both parts at concrete inputs. -/
theorem claim5_amended_witness :
    (∃ ds2, validate_branch_commits_json
      (some (goodData.filter (fun p => !(p.1 == "pr/45-googlefan256-main")))) =
      some (false, ds2)) ∧
    validate_branch_commits_json
      (some (goodData ++ [("extra-branch", extraBranchCommits)])) =
      some (true, []) :=
  ⟨claim5_amended.1 goodData "pr/45-googlefan256-main" [] (by decide) rfl,
   claim5_amended.2 goodData [] "extra-branch" extraBranchCommits rfl
     (by decide) (by decide) (by decide) (by decide)⟩

/-- Claim C1: for a configured artifact whose schema declares no text
encoding (`BRANCH_COMMITS.json` and `MERGE_TIMELINE.txt`), a successful
contents fetch still yields `None`: the `next (...)` encoding lookup raises
`StopIteration`, which the decode `except` swallows.  For the one artifact
that declares `utf-8`, the function performs the documented pipeline:
extract the base64 field, strip newlines, base64-decode, decode as utf-8. -/
theorem get_artifact_content_encoding_slip (fd : FileData)
    (b64decode : String → Option (List Nat))
    (bytesDecode : List Nat → String → Option String) :
    get_artifact_content (some fd) b64decode bytesDecode "BRANCH_COMMITS.json" = none ∧
    get_artifact_content (some fd) b64decode bytesDecode "MERGE_TIMELINE.txt" = none ∧
    get_artifact_content (some fd) b64decode bytesDecode "CROSS_BRANCH_ANALYSIS.md" =
      (b64decode ((fd.content.getD "").replace "\n" "")).bind
        (fun bs => bytesDecode bs "utf-8") := by
  refine ⟨rfl, rfl, ?_⟩
  cases hb : b64decode ((fd.content.getD "").replace "\n" "") with
  | none =>
    simp [get_artifact_content, findDeclaredEncoding, artifacts_encodings, hb]
  | some bs =>
    cases hd : bytesDecode bs "utf-8" with
    | none =>
      simp [get_artifact_content, findDeclaredEncoding, artifacts_encodings, hb, hd]
    | some s =>
      simp [get_artifact_content, findDeclaredEncoding, artifacts_encodings, hb, hd]

/-- Claim C8: the branch-existence step.  A 200 response passes (whatever the
mandatory flag) and continues; a 404 on a mandatory branch returns the fatal
outcome on which `main` exits 1; a 404 on a non-mandatory branch passes with
a warning and continues. -/
theorem check_branch_existence_cases :
    (check_branch_existence (ApiOutcome.status 200) true = (true, []) ∧
     mainStep2Exit (ApiOutcome.status 200) true = none) ∧
    (check_branch_existence (ApiOutcome.status 200) false = (true, []) ∧
     mainStep2Exit (ApiOutcome.status 200) false = none) ∧
    (check_branch_existence (ApiOutcome.status 404) true =
       (false, [Diag.branchMissingFatal]) ∧
     mainStep2Exit (ApiOutcome.status 404) true = some 1) ∧
    (check_branch_existence (ApiOutcome.status 404) false =
       (true, [Diag.branchMissingWarn]) ∧
     mainStep2Exit (ApiOutcome.status 404) false = none) :=
  ⟨⟨rfl, rfl⟩, ⟨rfl, rfl⟩, ⟨rfl, rfl⟩, ⟨rfl, rfl⟩⟩

/-- Claim C10: the router passes any artifact name outside the three
configured ones, for any content and any parse behaviour, emitting only the
skip warning. -/
theorem validate_artifact_unknown_name_passes
    (parse : String → Option BranchData) (content : String) (name : String)
    (h : name ∉ artifact_names) :
    validate_artifact parse content name = some (true, [Diag.skipWarning name]) := by
  have h1 : name ≠ "BRANCH_COMMITS.json" := by
    intro he; exact h (by rw [he]; simp [artifact_names])
  have h2 : name ≠ "CROSS_BRANCH_ANALYSIS.md" := by
    intro he; exact h (by rw [he]; simp [artifact_names])
  have h3 : name ≠ "MERGE_TIMELINE.txt" := by
    intro he; exact h (by rw [he]; simp [artifact_names])
  unfold validate_artifact
  rw [if_neg h1, if_neg h2, if_neg h3]

/-- Witness for claim C10 at a concrete unknown name. -/
theorem validate_artifact_unknown_name_passes_witness :
    validate_artifact (fun _ => none) "any content" "NOTES.txt" =
      some (true, [Diag.skipWarning "NOTES.txt"]) :=
  validate_artifact_unknown_name_passes (fun _ => none) "any content" "NOTES.txt"
    (by decide)

/-!  Behaviour of the narrative-document validator.  -/

theorem md_too_short (content : String) (h : content.length < md_min_length) :
    validate_cross_branch_md content =
      (false, [Diag.docTooShort content.length]) := by
  unfold validate_cross_branch_md
  rw [if_pos h]

theorem md_missing_section_stops (content : String)
    (hlen : md_min_length ≤ content.length)
    (hmiss : required_sections.filter (fun s => !(pyIn s content)) ≠ []) :
    validate_cross_branch_md content =
      (false, [Diag.missingSections
        (required_sections.filter (fun s => !(pyIn s content)))]) := by
  unfold validate_cross_branch_md
  rw [if_neg (Nat.not_lt.mpr hlen)]
  have hne : (required_sections.filter
      (fun s => !(pyIn s content))).isEmpty = false := by
    cases hq : (required_sections.filter (fun s => !(pyIn s content))).isEmpty
    · rfl
    · exact absurd (eq_nil_of_isEmpty hq) hmiss
  rw [if_pos (by rw [hne]; rfl)]

theorem md_pass (content : String)
    (hlen : md_min_length ≤ content.length)
    (hsec : ∀ s ∈ required_sections, pyIn s content = true)
    (hkw : ∀ k ∈ must_contain_keywords, pyIn (pyLower k) (pyLower content) = true)
    (hcon : ∀ c2 ∈ expected_contributors, pyIn c2 content = true) :
    validate_cross_branch_md content = (true, []) := by
  unfold validate_cross_branch_md
  rw [if_neg (Nat.not_lt.mpr hlen)]
  rw [filter_eq_nil_of_all (fun s => !(pyIn s content)) required_sections
    (fun s hs => by simp [hsec s hs])]
  rw [filter_eq_nil_of_all (fun k => !(pyIn (pyLower k) (pyLower content)))
    must_contain_keywords (fun k hk => by simp [hkw k hk])]
  rw [filter_eq_nil_of_all (fun c2 => !(pyIn c2 content)) expected_contributors
    (fun c2 hc2 => by simp [hcon c2 hc2])]
  rfl

/-!  Behaviour of the timeline validator.  -/

theorem firstBadLine_none (ls : List String) :
    ∀ idx, (∀ l ∈ ls, matchTimelineLine l = true) → firstBadLine idx ls = none := by
  induction ls with
  | nil => intro idx _; rfl
  | cons l ls ih =>
    intro idx h
    have hl := h l (List.mem_cons_self _ _)
    simp [firstBadLine, hl]
    exact ih (idx + 1) (fun l2 h2 => h l2 (List.mem_cons_of_mem _ h2))

theorem firstBadLine_append (good : List String) (bad : String)
    (rest : List String) :
    ∀ idx, (∀ l ∈ good, matchTimelineLine l = true) →
    matchTimelineLine bad = false →
    firstBadLine idx (good ++ bad :: rest) = some (idx + good.length, bad) := by
  induction good with
  | nil =>
    intro idx _ hbad
    simp [firstBadLine, hbad]
  | cons g gs ih =>
    intro idx h hbad
    have hg := h g (List.mem_cons_self _ _)
    simp only [List.cons_append]
    simp only [firstBadLine, hg, Bool.not_true, Bool.false_eq_true, if_false]
    rw [ih (idx + 1) (fun l2 h2 => h l2 (List.mem_cons_of_mem _ h2)) hbad]
    have harith : idx + 1 + gs.length = idx + (g :: gs).length := by
      simp only [List.length_cons]
      omega
    rw [harith]

theorem timeline_count_low (content : String)
    (h : (pyLines content).length < min_lines) :
    validate_merge_timeline content =
      (false, [Diag.lineCountLow (pyLines content).length]) := by
  unfold validate_merge_timeline
  rw [if_pos h]

theorem timeline_first_bad (content : String) (good : List String) (bad : String)
    (rest : List String)
    (hsplit : pyLines content = good ++ bad :: rest)
    (hlen : min_lines ≤ (pyLines content).length)
    (hgood : ∀ l ∈ good, matchTimelineLine l = true)
    (hbad : matchTimelineLine bad = false) :
    validate_merge_timeline content =
      (false, [Diag.lineFormat (good.length + 1) bad]) := by
  unfold validate_merge_timeline
  rw [if_neg (Nat.not_lt.mpr hlen)]
  rw [hsplit, firstBadLine_append good bad rest 1 hgood hbad]
  have harith : 1 + good.length = good.length + 1 := Nat.add_comm 1 _
  rw [harith]

theorem timeline_pass (content : String)
    (hlen : min_lines ≤ (pyLines content).length)
    (hall : ∀ l ∈ pyLines content, matchTimelineLine l = true)
    (hent : ∀ e ∈ expected_entries, pyIn e content = true) :
    validate_merge_timeline content = (true, []) := by
  unfold validate_merge_timeline
  rw [if_neg (Nat.not_lt.mpr hlen)]
  rw [firstBadLine_none (pyLines content) 1 hall]
  rw [filter_eq_nil_of_all (fun e => !(pyIn e content)) expected_entries
    (fun e he => by simp [hent e he])]
  rfl

theorem length_le_utf8Length (s : String) : s.length ≤ utf8Length s := by
  have hlist : ∀ l : List Char, l.length ≤ (l.map Char.utf8Size).sum := by
    intro l
    induction l with
    | nil => simp
    | cons c cs ih =>
      simp only [List.map_cons, List.sum_cons, List.length_cons]
      have hc : 1 ≤ c.utf8Size := Char.utf8Size_pos c
      omega
  exact hlist s.toList

/-- Claim C2 counterexample: `doc2` violates both the section check (the
second required header is absent) and the keyword check (`branch` absent),
yet the narrative validator emits only the section diagnostic: it returns at
the first failed check instead of surfacing all problems. -/
theorem claim2_counterexample :
    pyIn (pyLower "branch") (pyLower doc2) = false ∧
    validate_cross_branch_md doc2 =
      (false, [Diag.missingSections ["## Branch Commit Summary"]]) :=
  ⟨by decide, by rfl⟩

/-- Claim C2 (amended): the JSON validator accumulates one diagnostic per
failed per-branch or per-commit check and keeps evaluating (two short
branches yield two diagnostics); the narrative and timeline validators
return at the first failing check, emitting only that check's diagnostic
line even when later independent checks are also violated. -/
theorem claim2_amended :
    (∀ content : String, md_min_length ≤ content.length →
      required_sections.filter (fun s => !(pyIn s content)) ≠ [] →
      validate_cross_branch_md content =
        (false, [Diag.missingSections
          (required_sections.filter (fun s => !(pyIn s content)))])) ∧
    (∀ (content : String) (good : List String) (bad : String)
       (rest : List String),
      pyLines content = good ++ bad :: rest →
      min_lines ≤ (pyLines content).length →
      (∀ l ∈ good, matchTimelineLine l = true) →
      matchTimelineLine bad = false →
      validate_merge_timeline content =
        (false, [Diag.lineFormat (good.length + 1) bad])) ∧
    validate_branch_commits_json (some dataTwoShort) =
      some (false,
        [Diag.branchTooFewCommits "pr/45-googlefan256-main" 0,
         Diag.branchTooFewCommits "pr/25-neuralsorcerer-patch-1" 0]) :=
  ⟨md_missing_section_stops, timeline_first_bad, by rfl⟩

/-- Witness for the amended claim C2 at concrete inputs. -/
theorem claim2_amended_witness :
    validate_cross_branch_md doc2 =
      (false, [Diag.missingSections
        (required_sections.filter (fun s => !(pyIn s doc2)))]) ∧
    validate_merge_timeline logBad2 =
      (false, [Diag.lineFormat 11 "another bad line!"]) :=
  ⟨claim2_amended.1 doc2 (by decide) (by decide),
   claim2_amended.2.1 logBad2 logGoodLines "another bad line!" [] (by rfl)
     (by decide) (by decide) (by decide)⟩

/-- Claim C6 counterexample: a document holding every required section,
keyword and contributor line, 506 bytes of UTF-8, which the validator
rejects as too short: the length check counts code points (Python `len`),
not bytes, and the document has only 306 characters. -/
theorem claim6_counterexample :
    500 ≤ utf8Length doc6 ∧
    required_sections.all (fun s => pyIn s doc6) = true ∧
    must_contain_keywords.all (fun k => pyIn (pyLower k) (pyLower doc6)) = true ∧
    expected_contributors.all (fun c2 => pyIn c2 doc6) = true ∧
    validate_cross_branch_md doc6 = (false, [Diag.docTooShort 306]) :=
  ⟨by decide, by decide, by decide, by decide, by rfl⟩

/-- Claim C6 (amended): the narrative validator fails every input with fewer
than 500 characters — in particular every input whose UTF-8 byte length is
below 500 — and passes every document containing all required sections,
keywords (case-insensitive) and contributor lines that is at least 500
characters long, extra contributor lines permitted. -/
theorem claim6_amended :
    (∀ content : String, utf8Length content < md_min_length →
      validate_cross_branch_md content =
        (false, [Diag.docTooShort content.length])) ∧
    (∀ content : String, md_min_length ≤ content.length →
      (∀ s ∈ required_sections, pyIn s content = true) →
      (∀ k ∈ must_contain_keywords, pyIn (pyLower k) (pyLower content) = true) →
      (∀ c2 ∈ expected_contributors, pyIn c2 content = true) →
      validate_cross_branch_md content = (true, [])) :=
  ⟨fun content h =>
    md_too_short content (Nat.lt_of_le_of_lt (length_le_utf8Length content) h),
   md_pass⟩

/-- Witness for the amended claim C6: a short document fails, a conforming
506-character document passes. -/
theorem claim6_amended_witness :
    validate_cross_branch_md docShort = (false, [Diag.docTooShort 2]) ∧
    validate_cross_branch_md docPass = (true, []) :=
  ⟨claim6_amended.1 docShort (by decide),
   claim6_amended.2 docPass (by decide) (by decide) (by decide) (by decide)⟩

/-- Claim C7 counterexample: a one-line log whose line fails the pattern is
rejected on the count check; no line-format diagnostic with an index is
emitted, contrary to the claim that any non-matching line is reported with
its exact index. -/
theorem claim7_counterexample :
    matchTimelineLine "garbage" = false ∧
    validate_merge_timeline "garbage" = (false, [Diag.lineCountLow 1]) :=
  ⟨by decide, by rfl⟩

/-- Claim C7 (amended): the count check runs first.  A log with at least 10
non-blank lines containing a non-matching line fails with the exact 1-based
index of the first such line; a log with fewer than 10 non-blank lines
(matching or not) fails on the count; a log with at least 10 matching lines
containing every expected entry as a substring passes. -/
theorem claim7_amended :
    (∀ (content : String) (good : List String) (bad : String)
       (rest : List String),
      pyLines content = good ++ bad :: rest →
      min_lines ≤ (pyLines content).length →
      (∀ l ∈ good, matchTimelineLine l = true) →
      matchTimelineLine bad = false →
      validate_merge_timeline content =
        (false, [Diag.lineFormat (good.length + 1) bad])) ∧
    (∀ content : String,
      (∀ l ∈ pyLines content, matchTimelineLine l = true) →
      (pyLines content).length < min_lines →
      validate_merge_timeline content =
        (false, [Diag.lineCountLow (pyLines content).length])) ∧
    (∀ content : String,
      min_lines ≤ (pyLines content).length →
      (∀ l ∈ pyLines content, matchTimelineLine l = true) →
      (∀ e ∈ expected_entries, pyIn e content = true) →
      validate_merge_timeline content = (true, [])) :=
  ⟨timeline_first_bad,
   fun content _ h => timeline_count_low content h,
   timeline_pass⟩

/-- Witness for the amended claim C7 at three concrete logs. -/
theorem claim7_amended_witness :
    validate_merge_timeline logBad =
      (false, [Diag.lineFormat 11 "not a timeline line"]) ∧
    validate_merge_timeline logShort = (false, [Diag.lineCountLow 3]) ∧
    validate_merge_timeline logGood = (true, []) :=
  ⟨claim7_amended.1 logBad logGoodLines "not a timeline line" [] (by rfl)
     (by decide) (by decide) (by decide),
   claim7_amended.2.1 logShort (by decide) (by decide),
   claim7_amended.2.2 logGood (by decide) (by decide) (by decide)⟩

/-!  The artifact phase of the orchestrator.  -/

theorem step3Loop_no_crash (fetch : String → Option String)
    (parse : String → Option BranchData) (names : List String) :
    ∀ (valid : Bool) (attempted : List String),
    (∀ nm ∈ names, ∀ c, fetch nm = some c → c ≠ "" →
      validate_artifact parse c nm ≠ none) →
    step3Loop fetch parse names valid attempted =
      some (valid && names.all (artifactOk fetch parse), attempted ++ names) := by
  induction names with
  | nil => intro valid attempted _; simp [step3Loop]
  | cons nm rest ih =>
    intro valid attempted h
    cases hf : fetch nm with
    | none =>
      simp only [step3Loop, hf]
      rw [ih false (attempted ++ [nm])
        (fun n hn => h n (List.mem_cons_of_mem _ hn))]
      have hok : artifactOk fetch parse nm = false := by
        unfold artifactOk; rw [hf]
      simp [hok, List.append_assoc]
    | some content =>
      by_cases hc : content = ""
      · subst hc
        simp only [step3Loop, hf, if_pos rfl]
        rw [ih false (attempted ++ [nm])
          (fun n hn => h n (List.mem_cons_of_mem _ hn))]
        have hok : artifactOk fetch parse nm = false := by
          unfold artifactOk; rw [hf]; rfl
        simp [hok, List.append_assoc]
      · cases hv : validate_artifact parse content nm with
        | none => exact absurd hv (h nm (List.mem_cons_self _ _) content hf hc)
        | some t =>
          obtain ⟨ok, ds⟩ := t
          simp only [step3Loop, hf, if_neg hc, hv]
          rw [ih (valid && ok) (attempted ++ [nm])
            (fun n hn => h n (List.mem_cons_of_mem _ hn))]
          have hok : artifactOk fetch parse nm = ok := by
            unfold artifactOk
            rw [hf]
            change (if content = "" then false
                    else
                      match validate_artifact parse content nm with
                      | none => false
                      | some (ok2, _) => ok2) = ok
            rw [if_neg hc, hv]
          simp [hok, Bool.and_assoc, List.append_assoc]

/-- Claim C9: given that no validator crashes, the artifact phase attempts
all three configured artifacts — the attempted list is always the full
name list, regardless of earlier fetch or validation failures — and only
then exits: status 0 when every artifact was fetched non-empty and
validated, status 1 otherwise. -/
theorem claim9_artifact_phase (fetch : String → Option String)
    (parse : String → Option BranchData)
    (hnc : ∀ nm ∈ artifact_names, ∀ c, fetch nm = some c → c ≠ "" →
      validate_artifact parse c nm ≠ none) :
    mainArtifactPhase fetch parse =
      some (if artifact_names.all (artifactOk fetch parse) then 0 else 1,
        artifact_names) := by
  unfold mainArtifactPhase
  rw [step3Loop_no_crash fetch parse artifact_names true [] hnc]
  simp

/-- Witness for claim C9: with every fetch failing, all three artifacts are
still attempted and the phase exits 1. -/
theorem claim9_artifact_phase_witness :
    mainArtifactPhase (fun _ => none) (fun _ => none) =
      some (1, artifact_names) := by
  have h := claim9_artifact_phase (fun _ => none) (fun _ => none)
    (by intro nm hnm c hc; simp at hc)
  rw [h]
  rfl
